import Mathlib

/-!
Verification of the sqlite-to-Elasticsearch migration pipeline
(`sqlite2es.py`): a shallow embedding of the row transformation
(`ETL._transform_row`), the writers directory (`ETL.load_writers_names`),
the bulk-query builder (`ESLoader._get_es_bulk_query`), the per-item
error handling of `ESLoader.load_to_es`, and the connection context
manager (`conn_context`), together with theorems about them.

Conventions of the embedding:
- Python strings are `String`; Python `None`-able strings are `Option String`.
- Python float values are embedded as `Rat`; the builtin `float(s)` parse is
  an abstract parameter `pf : String → Option Rat` (`none` models the
  `ValueError` raised on a non-numeric string).
- Python exceptions are `Except`: `_transform_row` can fault on a writer id
  missing from the directory (`KeyError`) or on a non-numeric rating
  (`ValueError`); these are the only fault sources in the function.
- The `writers` column of a row is embedded after `json.loads`: the code
  parses the JSON text into a list of objects and reads the id of each, so
  the row carries the list of writer ids directly.
-/

set_option autoImplicit false

namespace S2E

/-- The sentinel string the source database uses for a missing value. -/
def NA : String := "N/A"

/-- A writer record, as stored in the writers dict built by
`load_writers_names`: the row dict with keys id and name. -/
structure Writer where
  id : String
  name : String
deriving DecidableEq

/-- An actor entry of the output document, built by
`{'id': _id, 'name': name}` in `_transform_row`. -/
structure ActorEntry where
  id : String
  name : String
deriving DecidableEq

/-- A row produced by the extraction query (`ETL.SQL`), after
`dict_factory` turned it into a dict.  `actors_ids` and `actors_names`
are `NULL` (here `none`) when the movie has no linked actors.  The
`writers` field holds the writer ids of the JSON array the code obtains
from `json.loads(row['writers'])`. -/
structure Row where
  id : String
  genre : String
  director : String
  title : String
  plot : String
  imdb_rating : String
  actors_ids : Option String
  actors_names : Option String
  writers : List String
deriving DecidableEq

/-- The document `_transform_row` returns for one row. -/
structure Doc where
  id : String
  genre : List String
  writers : List Writer
  actors : List ActorEntry
  actors_names : List String
  writers_names : List String
  imdb_rating : Option Rat
  title : String
  director : Option (List String)
  description : Option String
deriving DecidableEq

/-- The faults `_transform_row` can raise: `KeyError` on a writer id absent
from the writers dict, `ValueError` from `float` on a non-numeric,
non-sentinel rating string. -/
inductive TransformError where
  | missingWriter (id : String)
  | badRating (s : String)
deriving DecidableEq

instance {ε α : Type} [DecidableEq ε] [DecidableEq α] :
    DecidableEq (Except ε α) := fun x y =>
  match x, y with
  | .error e, .error f => decidable_of_iff (e = f) (by simp)
  | .ok a, .ok b => decidable_of_iff (a = b) (by simp)
  | .error _, .ok _ => isFalse (fun h => Except.noConfusion h)
  | .ok _, .error _ => isFalse (fun h => Except.noConfusion h)

/-- Characters stripped by Python `str.strip()` (the ASCII ones). -/
def isPySpace (c : Char) : Bool :=
  c == ' ' || c == '\t' || c == '\n' || c == '\r' || c == '\x0b' || c == '\x0c'

/-- Python `s.strip()`: drop leading and trailing whitespace. -/
def pyStrip (s : String) : String :=
  ⟨((s.toList.dropWhile isPySpace).reverse.dropWhile isPySpace).reverse⟩

/-- Python `s.replace(' ', '')`: since the pattern is the single space
character and the replacement is empty, this deletes every space. -/
def removeSpaces (s : String) : String :=
  ⟨s.toList.filter (fun c => c != ' ')⟩

/-- Splitting a character list on a separator character, with Python
`str.split(sep)` semantics: the empty list yields one empty group, and a
separator always starts a new group. -/
def splitOnChar (sep : Char) : List Char → List (List Char)
  | [] => [[]]
  | c :: cs =>
    match splitOnChar sep cs with
    | [] => [[c]]
    | g :: gs => if c = sep then [] :: g :: gs else (c :: g) :: gs

/-- Python `s.split(sep)` for a one-character separator. -/
def pySplit (s : String) (sep : Char) : List String :=
  (splitOnChar sep s.toList).map (fun l => ⟨l⟩)

/-- The writers loop of `_transform_row`, with its `writers_set`
accumulator `seen`: look each id up in the writers dict (a missing id is a
`KeyError`), append the record when its name is not the sentinel and the
id was not collected yet. -/
def movieWritersAux (dir : String → Option Writer) :
    List String → List String → Except TransformError (List Writer)
  | [], _ => .ok []
  | wid :: rest, seen =>
    match dir wid with
    | none => .error (.missingWriter wid)
    | some w =>
      if w.name ≠ NA ∧ wid ∉ seen then
        (movieWritersAux dir rest (wid :: seen)).map (fun l => w :: l)
      else
        movieWritersAux dir rest seen

/-- The writers loop of `_transform_row`, started with an empty set. -/
def movieWriters (dir : String → Option Writer) (ids : List String) :
    Except TransformError (List Writer) :=
  movieWritersAux dir ids []

/-- The actors list comprehension of `_transform_row`: zip the comma-split
id and name strings, keep the pairs whose name is not the sentinel, and
build the entry dicts. -/
def mkActors (ids names : String) : List ActorEntry :=
  (((pySplit ids ',').zip (pySplit names ',')).filter
    (fun p => p.2 != NA)).map (fun p => { id := p.1, name := p.2 })

/-- The actors_names list comprehension of `_transform_row`: the
comma-split name string, sentinel entries dropped. -/
def mkActorsNames (names : String) : List String :=
  (pySplit names ',').filter (fun x => x != NA)

/-- The actors field: empty unless both `actors_ids` and `actors_names`
are non-null. -/
def rowActors (row : Row) : List ActorEntry :=
  match row.actors_ids, row.actors_names with
  | some ids, some names => mkActors ids names
  | _, _ => []

/-- The actors_names field: empty unless both `actors_ids` and
`actors_names` are non-null. -/
def rowActorsNames (row : Row) : List String :=
  match row.actors_ids, row.actors_names with
  | some _, some names => mkActorsNames names
  | _, _ => []

/-- The imdb_rating expression of `_transform_row`:
`float(row['imdb_rating']) if row['imdb_rating'] != 'N/A' else None`,
where `pf` embeds the builtin `float` and `none` its `ValueError`. -/
def ratingResult (pf : String → Option Rat) (s : String) :
    Except TransformError (Option Rat) :=
  if s ≠ NA then
    match pf s with
    | some q => .ok (some q)
    | none => .error (.badRating s)
  else .ok none

/-- The dict literal `_transform_row` returns, given the already-computed
writers list and rating. -/
def mkDoc (row : Row) (mw : List Writer) (r : Option Rat) : Doc where
  id := row.id
  genre := pySplit (removeSpaces row.genre) ','
  writers := mw
  actors := rowActors row
  actors_names := rowActorsNames row
  writers_names := mw.map Writer.name
  imdb_rating := r
  title := row.title
  director :=
    if row.director ≠ NA then some ((pySplit row.director ',').map pyStrip)
    else none
  description := if row.plot ≠ NA then some row.plot else none

/-- `ETL._transform_row`: the writers loop runs first (so a `KeyError` on a
missing writer id faults before anything else), then the dict literal is
evaluated, whose only fault source is the `float` call on the rating. -/
def transform_row (pf : String → Option Rat) (row : Row)
    (dir : String → Option Writer) : Except TransformError Doc :=
  match movieWriters dir row.writers with
  | .error e => .error e
  | .ok mw =>
    match ratingResult pf row.imdb_rating with
    | .error e => .error e
    | .ok r => .ok (mkDoc row mw r)

/-- `ETL.load_writers_names`: fold the (distinct) writer rows into a dict
keyed by each record's own id, last write winning. -/
def load_writers_names (rows : List Writer) : String → Option Writer :=
  rows.foldl (fun dict w => fun k => if k = w.id then some w else dict k)
    (fun _ => none)

/-- The action-metadata line
`{'index': {'_index': index_name, '_id': row['id']}}` of the bulk
protocol. -/
structure BulkAction where
  _index : String
  _id : String
deriving DecidableEq

/-- One line of the bulk request body: either an action-metadata line or
the JSON encoding of a document.  The embedding keeps the JSON objects
structural rather than textual. -/
inductive BulkLine where
  | action (a : BulkAction)
  | doc (d : Doc)
deriving DecidableEq

/-- `ESLoader._get_es_bulk_query`: the loop that extends `prepared_query`
with an action line and a document line per row. -/
def get_es_bulk_query (rows : List Doc) (index_name : String) :
    List BulkLine :=
  rows.foldl
    (fun acc row => acc ++ [.action ⟨index_name, row.id⟩, .doc row]) []

/-- The body `load_to_es` posts: the lines joined with a newline, plus a
trailing newline (`'\n'.join(prepared_query) + '\n'`), given a rendering
of each line to its JSON text. -/
def bulk_body (render : BulkLine → String) (lines : List BulkLine) :
    String :=
  String.intercalate "\n" (lines.map render) ++ "\n"

/-- One element of the `items` array of a bulk response, reduced to what
`load_to_es` reads from it: `item['index'].get('error')`, which is `none`
when the key is absent.  The error value is embedded as a string (the
message that gets logged). -/
structure BulkItem where
  error : Option String
deriving DecidableEq

/-- The response loop of `ESLoader.load_to_es`: for each item, read
`item['index'].get('error')` and log it when it is truthy — in Python,
`None` and the empty string are falsy, so `if error_message:` skips both.
The returned list is the sequence of logged error messages, in order. -/
def load_errors (items : List BulkItem) : List String :=
  items.foldl
    (fun logs item =>
      match item.error with
      | some e => if e ≠ "" then logs ++ [e] else logs
      | none => logs) []

/-- The outcome of running `with conn_context(db_path) as conn: body`:
the propagated result of the body and whether `conn.close()` ran. -/
structure ConnRun (ε α : Type) where
  result : Except ε α
  connClosed : Bool

/-- Shallow embedding of `conn_context`, a `@contextmanager` generator
whose body is `conn = sqlite3.connect(db_path); yield conn; conn.close()`.
When the with-body completes, the generator resumes after the yield and
`conn.close()` runs.  When the with-body raises, the exception is thrown
into the generator at the yield point; since the yield is not wrapped in
try/finally, the generator unwinds without ever reaching `conn.close()`,
and the exception propagates. -/
def conn_context_run {ε α : Type} (body : Except ε α) : ConnRun ε α :=
  match body with
  | .ok a => { result := .ok a, connClosed := true }
  | .error e => { result := .error e, connClosed := false }

/-- Genre as the claim words it: strip ALL whitespace from the whole
string, then split on the comma.  (The code instead removes only the
space character.) -/
def genre_spec (s : String) : List String :=
  pySplit ⟨s.toList.filter (fun c => !(isPySpace c))⟩ ','

/-- The writers list as the spec describes it: deduplicate the ids keeping
the first occurrence, resolve each through the directory, and drop the
entries whose resolved name is the sentinel. -/
def dedupKeepFirst {α : Type} [DecidableEq α] : List α → List α
  | [] => []
  | x :: xs => x :: dedupKeepFirst (xs.filter (fun y => decide (y ≠ x)))
termination_by l => l.length
decreasing_by
  simp only [List.length_cons]
  exact Nat.lt_succ_of_le (List.length_filter_le _ _)

/-- Resolution of one writer id as the spec describes it: look it up, drop
it when its name is the sentinel. -/
def resolveWriter (dir : String → Option Writer) (wid : String) :
    Option Writer :=
  (dir wid).bind (fun w => if w.name = NA then none else some w)

/-- The spec-side writers list: first-occurrence deduplication of the ids,
then resolution and sentinel filtering. -/
def specWriters (dir : String → Option Writer) (ids : List String) :
    List Writer :=
  (dedupKeepFirst ids).filterMap (resolveWriter dir)

/-- A successful transform decomposes into a successful writers loop, a
successful rating parse, and the returned dict literal. -/
lemma transform_ok_elim {pf : String → Option Rat} {row : Row}
    {dir : String → Option Writer} {doc : Doc}
    (h : transform_row pf row dir = .ok doc) :
    ∃ mw r, movieWriters dir row.writers = .ok mw ∧
      ratingResult pf row.imdb_rating = .ok r ∧ doc = mkDoc row mw r := by
  unfold transform_row at h
  cases hmw : movieWriters dir row.writers with
  | error e => rw [hmw] at h; exact absurd h (by simp)
  | ok mw =>
    rw [hmw] at h
    cases hr : ratingResult pf row.imdb_rating with
    | error e => rw [hr] at h; exact absurd h (by simp)
    | ok r =>
      rw [hr] at h
      exact ⟨mw, r, rfl, rfl, (Except.ok.inj h).symm⟩

/-- If the writers loop faults, the whole transform faults with the same
error. -/
lemma transform_error_of_writers {pf : String → Option Rat} {row : Row}
    {dir : String → Option Writer} {e : TransformError}
    (h : movieWriters dir row.writers = .error e) :
    transform_row pf row dir = .error e := by
  unfold transform_row
  rw [h]

/-- A writer id absent from the directory faults the writers loop with a
`KeyError`, whatever the already-seen set is. -/
lemma movieWritersAux_error {dir : String → Option Writer} :
    ∀ {ids : List String} (seen : List String),
      (∃ wid ∈ ids, dir wid = none) →
      ∃ wid, movieWritersAux dir ids seen = .error (.missingWriter wid) := by
  intro ids
  induction ids with
  | nil => intro seen h; obtain ⟨_, hmem, _⟩ := h; cases hmem
  | cons wid rest ih =>
    intro seen h
    obtain ⟨a, hmem, hnone⟩ := h
    cases hd : dir wid with
    | none => exact ⟨wid, by simp [movieWritersAux, hd]⟩
    | some w =>
      have harest : a ∈ rest := by
        rcases List.mem_cons.mp hmem with heq | hr
        · exact absurd hnone (by rw [heq, hd]; simp)
        · exact hr
      by_cases hc : w.name ≠ NA ∧ wid ∉ seen
      · obtain ⟨wid', hw⟩ := ih (wid :: seen) ⟨a, harest, hnone⟩
        exact ⟨wid', by simp [movieWritersAux, hd, hc, hw, Except.map]⟩
      · obtain ⟨wid', hw⟩ := ih seen ⟨a, harest, hnone⟩
        exact ⟨wid', by simp [movieWritersAux, hd, hc, hw]⟩

/-- When every id of the list is present in the directory, the writers
loop succeeds, and no writer it returns carries the sentinel name. -/
lemma movieWritersAux_ok_of_present {dir : String → Option Writer} :
    ∀ {ids : List String} (seen : List String),
      (∀ wid ∈ ids, (dir wid).isSome) →
      ∃ l, movieWritersAux dir ids seen = .ok l ∧ ∀ w ∈ l, w.name ≠ NA := by
  intro ids
  induction ids with
  | nil => exact fun seen _ => ⟨[], rfl, by simp⟩
  | cons wid rest ih =>
    intro seen h
    have hw : (dir wid).isSome := h wid (by simp)
    obtain ⟨w, hd⟩ := Option.isSome_iff_exists.mp hw
    have hrest : ∀ x ∈ rest, (dir x).isSome :=
      fun x hx => h x (List.mem_cons_of_mem _ hx)
    by_cases hc : w.name ≠ NA ∧ wid ∉ seen
    · obtain ⟨l, hl, hnames⟩ := ih (wid :: seen) hrest
      refine ⟨w :: l,
        by simp [movieWritersAux, hd, hc, hl, Except.map], ?_⟩
      intro x hx
      rcases List.mem_cons.mp hx with heq | hmem
      · rw [heq]; exact hc.1
      · exact hnames x hmem
    · obtain ⟨l, hl, hnames⟩ := ih seen hrest
      exact ⟨l, by simp [movieWritersAux, hd, hc, hl], hnames⟩

/-- C1: the claim says the source connection is closed unconditionally,
on success and on fault.  The code closes it only on success: the
`@contextmanager` generator has no try/finally around its yield, so an
exception raised by the with-body skips `conn.close()`.  This theorem
records both paths of the embedded semantics. -/
theorem conn_context_close_behavior :
    (conn_context_run (Except.ok () : Except Unit Unit)).connClosed = true ∧
    (conn_context_run (Except.error () : Except Unit Unit)).connClosed
      = false :=
  ⟨rfl, rfl⟩

/-- C2: a writer id absent from the writers directory faults
`_transform_row` (a `KeyError`, not a silent skip); when every referenced
id is present, the writers loop succeeds and entries whose name is the
sentinel are excluded without fault. -/
theorem writers_missing_id_faults (pf : String → Option Rat) (row : Row)
    (dir : String → Option Writer) :
    ((∃ wid ∈ row.writers, dir wid = none) →
      (transform_row pf row dir).isOk = false) ∧
    ((∀ wid ∈ row.writers, (dir wid).isSome) →
      (movieWriters dir row.writers).isOk = true ∧
      ∀ l, movieWriters dir row.writers = .ok l →
        ∀ w ∈ l, w.name ≠ NA) := by
  constructor
  · intro h
    obtain ⟨wid, hw⟩ := movieWritersAux_error [] h
    rw [transform_error_of_writers hw]
    rfl
  · intro h
    obtain ⟨l, hl, hnames⟩ := movieWritersAux_ok_of_present [] h
    refine ⟨by rw [movieWriters, hl]; rfl, ?_⟩
    intro l' hl' w hw
    rw [movieWriters, hl] at hl'
    exact hnames w ((Except.ok.inj hl') ▸ hw)

/-- The directory with no entries, for rows with no writers. -/
def dirEmpty : String → Option Writer := fun _ => none

/-- An abstract float parse that accepts no string. -/
def pfNone : String → Option Rat := fun _ => none

/-- A base row for concrete test inputs. -/
def baseRow : Row where
  id := "1"
  genre := "Action,Drama"
  director := "N/A"
  title := "X"
  plot := "N/A"
  imdb_rating := "N/A"
  actors_ids := none
  actors_names := none
  writers := []

/-- Witness for C2 at concrete inputs: a row referencing the absent id w9
faults, and a row whose only writer has the sentinel name transforms
without fault. -/
theorem writers_missing_id_faults_witness :
    (transform_row pfNone { baseRow with writers := ["w9"] }
      dirEmpty).isOk = false ∧
    (movieWriters (load_writers_names [⟨"w2", "N/A"⟩])
      ["w2"]).isOk = true := by
  constructor
  · exact (writers_missing_id_faults pfNone
      { baseRow with writers := ["w9"] } dirEmpty).1 (by decide)
  · exact ((writers_missing_id_faults pfNone
      { baseRow with writers := ["w2"] }
      (load_writers_names [⟨"w2", "N/A"⟩])).2 (by decide)).1

/-- C6: a rating string that is neither the sentinel nor parseable faults
`_transform_row` (the value is never coerced to null); a parseable rating
string comes through as the parsed float. -/
theorem rating_parse_fault_propagates (pf : String → Option Rat)
    (row : Row) (dir : String → Option Writer) :
    (row.imdb_rating ≠ NA → pf row.imdb_rating = none →
      (transform_row pf row dir).isOk = false) ∧
    (∀ (q : Rat) (doc : Doc), row.imdb_rating ≠ NA →
      pf row.imdb_rating = some q → transform_row pf row dir = .ok doc →
      doc.imdb_rating = some q) := by
  constructor
  · intro hna hpf
    have hr : ratingResult pf row.imdb_rating =
        .error (.badRating row.imdb_rating) := by
      unfold ratingResult
      rw [if_pos hna, hpf]
    unfold transform_row
    cases hmw : movieWriters dir row.writers with
    | error e => rfl
    | ok mw => rw [hr]; rfl
  · intro q doc hna hpf h
    obtain ⟨mw, r, _, hr, hdoc⟩ := transform_ok_elim h
    have : ratingResult pf row.imdb_rating = .ok (some q) := by
      unfold ratingResult
      rw [if_pos hna, hpf]
    rw [this] at hr
    rw [hdoc]
    exact (Except.ok.inj hr).symm

/-- An abstract float parse accepting exactly the string 7.5. -/
def pf75 : String → Option Rat := fun s => if s = "7.5" then some 7 else none

/-- The document the transform produces for `baseRow` with rating 7.5
under `pf75`. -/
def doc6 : Doc where
  id := "1"
  genre := ["Action", "Drama"]
  writers := []
  actors := []
  actors_names := []
  writers_names := []
  imdb_rating := some 7
  title := "X"
  director := none
  description := none

/-- Witness for C6 at concrete inputs: rating abc faults under a parse
that rejects it, and rating 7.5 comes through as the parsed value. -/
theorem rating_parse_fault_witness :
    (transform_row pf75 { baseRow with imdb_rating := "abc" }
      dirEmpty).isOk = false ∧
    doc6.imdb_rating = some 7 := by
  constructor
  · exact (rating_parse_fault_propagates pf75
      { baseRow with imdb_rating := "abc" } dirEmpty).1
      (by decide) (by decide)
  · exact (rating_parse_fault_propagates pf75
      { baseRow with imdb_rating := "7.5" } dirEmpty).2 7 doc6
      (by decide) (by decide) (by decide)

/-- C5: the sentinel in the scalar fields maps to null and is never passed
through: a sentinel rating yields a null rating, a sentinel plot yields a
null description (otherwise the plot passes through), a sentinel director
yields a null director (not an empty list), and otherwise the director is
the comma-split list with each element stripped of leading and trailing
whitespace. -/
theorem sentinel_scalars_to_null (pf : String → Option Rat) (row : Row)
    (dir : String → Option Writer) (doc : Doc)
    (h : transform_row pf row dir = .ok doc) :
    (row.imdb_rating = NA → doc.imdb_rating = none) ∧
    (row.plot = NA → doc.description = none) ∧
    (row.plot ≠ NA → doc.description = some row.plot) ∧
    (row.director = NA → doc.director = none) ∧
    (row.director ≠ NA →
      doc.director = some ((pySplit row.director ',').map pyStrip)) := by
  obtain ⟨mw, r, hmw, hr, hdoc⟩ := transform_ok_elim h
  subst hdoc
  refine ⟨?_, ?_, ?_, ?_, ?_⟩
  · intro hna
    rw [hna] at hr
    unfold ratingResult at hr
    rw [if_neg (by simp)] at hr
    show r = none
    exact (Except.ok.inj hr).symm
  · intro hp
    show (if row.plot ≠ NA then some row.plot else none) = none
    rw [if_neg (by simp [hp])]
  · intro hp
    show (if row.plot ≠ NA then some row.plot else none) = some row.plot
    rw [if_pos hp]
  · intro hd
    show (if row.director ≠ NA then
      some ((pySplit row.director ',').map pyStrip) else none) = none
    rw [if_neg (by simp [hd])]
  · intro hd
    show (if row.director ≠ NA then
        some ((pySplit row.director ',').map pyStrip) else none) =
      some ((pySplit row.director ',').map pyStrip)
    rw [if_pos hd]

/-- The document the transform produces for `baseRow` with a non-sentinel
director and plot. -/
def doc5 : Doc where
  id := "1"
  genre := ["Action", "Drama"]
  writers := []
  actors := []
  actors_names := []
  writers_names := []
  imdb_rating := none
  title := "X"
  director := some ["Jane Smith", "Name2"]
  description := some "A plot."

/-- The document the transform produces for `baseRow` itself (all scalar
fields at the sentinel). -/
def doc5na : Doc where
  id := "1"
  genre := ["Action", "Drama"]
  writers := []
  actors := []
  actors_names := []
  writers_names := []
  imdb_rating := none
  title := "X"
  director := none
  description := none

/-- Witness for C5 at concrete inputs: sentinel director, plot and rating
yield nulls, and a two-name director with stray whitespace yields the
stripped two-element list while the plot passes through. -/
theorem sentinel_scalars_witness :
    doc5na.imdb_rating = none ∧ doc5na.description = none ∧
    doc5na.director = none ∧
    doc5.director = some ["Jane Smith", "Name2"] ∧
    doc5.description = some "A plot." := by
  have h1 := sentinel_scalars_to_null pfNone baseRow dirEmpty doc5na
    (by decide)
  have h2 := sentinel_scalars_to_null pfNone
    { baseRow with director := "Jane Smith,  Name2 ", plot := "A plot." }
    dirEmpty doc5 (by decide)
  refine ⟨h1.1 (by decide), h1.2.1 (by decide), h1.2.2.2.1 (by decide),
    ?_, h2.2.2.1 (by decide)⟩
  refine (h2.2.2.2.2 (by decide)).trans ?_
  decide

/-- Filtering a zip by a predicate on the second component, with lists of
equal length, keeps exactly as many elements as filtering the second list
itself. -/
lemma length_filter_zip_eq {α β : Type} (p : β → Bool) :
    ∀ (a : List α) (b : List β), a.length = b.length →
      ((a.zip b).filter (fun x => p x.2)).length = (b.filter p).length := by
  intro a
  induction a with
  | nil =>
    intro b hb
    cases b with
    | nil => rfl
    | cons y ys => cases hb
  | cons x xs ih =>
    intro b hb
    cases b with
    | nil => cases hb
    | cons y ys =>
      have h' : xs.length = ys.length := by
        simpa using hb
      by_cases hp : p y
      · simp [List.zip_cons_cons, List.filter_cons, hp, ih ys h']
      · simp [List.zip_cons_cons, List.filter_cons, hp, ih ys h']

/-- Filtering a zip by a predicate on the second component never keeps
more elements than filtering the full second list. -/
lemma length_filter_zip_le {α β : Type} (p : β → Bool) :
    ∀ (a : List α) (b : List β),
      ((a.zip b).filter (fun x => p x.2)).length ≤ (b.filter p).length := by
  intro a
  induction a with
  | nil => intro b; simp
  | cons x xs ih =>
    intro b
    cases b with
    | nil => simp
    | cons y ys =>
      by_cases hp : p y
      · simpa [List.zip_cons_cons, List.filter_cons, hp] using ih ys
      · simp only [List.zip_cons_cons, List.filter_cons, hp]
        exact (ih ys).trans (Nat.le_refl _)

/-- Every entry the actors comprehension keeps has a non-sentinel name. -/
lemma mem_mkActors_name {ids names : String} :
    ∀ a ∈ mkActors ids names, a.name ≠ NA := by
  intro a ha
  simp only [mkActors, List.mem_map, List.mem_filter] at ha
  obtain ⟨p, ⟨_, hne⟩, rfl⟩ := ha
  exact bne_iff_ne.mp hne

/-- Every name the actors_names comprehension keeps differs from the
sentinel. -/
lemma mem_mkActorsNames {names : String} :
    ∀ n ∈ mkActorsNames names, n ≠ NA := by
  intro n hn
  simp only [mkActorsNames, List.mem_filter] at hn
  exact bne_iff_ne.mp hn.2

/-- The actors field of a successful transform, by null-ness of the two
source columns. -/
lemma rowActors_cases (row : Row) :
    ((row.actors_ids = none ∨ row.actors_names = none) →
      rowActors row = [] ∧ rowActorsNames row = []) ∧
    (∀ ids names, row.actors_ids = some ids →
      row.actors_names = some names →
      rowActors row = mkActors ids names ∧
      rowActorsNames row = mkActorsNames names) := by
  constructor
  · intro h
    rcases h with h | h <;>
      cases hi : row.actors_ids <;> cases hn : row.actors_names <;>
      simp_all [rowActors, rowActorsNames]
  · intro ids names hi hn
    simp [rowActors, rowActorsNames, hi, hn]

/-- C4: when either actor column is null both outputs are empty; when both
are present the actors are the positional zip of the two comma-splits
filtered by name after zipping, sentinel-named pairs appear in neither
output, and with equal split lengths the two outputs have equal length,
bounded by the id split length. -/
theorem actors_zip_before_filter (pf : String → Option Rat) (row : Row)
    (dir : String → Option Writer) (doc : Doc)
    (h : transform_row pf row dir = .ok doc) :
    ((row.actors_ids = none ∨ row.actors_names = none) →
      doc.actors = [] ∧ doc.actors_names = []) ∧
    (∀ ids names, row.actors_ids = some ids →
      row.actors_names = some names →
      doc.actors =
        (((pySplit ids ',').zip (pySplit names ',')).filter
          (fun p => p.2 != NA)).map
            (fun p => { id := p.1, name := p.2 : ActorEntry }) ∧
      (∀ a ∈ doc.actors, a.name ≠ NA) ∧
      (∀ n ∈ doc.actors_names, n ≠ NA) ∧
      ((pySplit ids ',').length = (pySplit names ',').length →
        doc.actors.length = doc.actors_names.length ∧
        doc.actors.length ≤ (pySplit ids ',').length)) := by
  obtain ⟨mw, r, hmw, hr, hdoc⟩ := transform_ok_elim h
  have hactors : doc.actors = rowActors row := by rw [hdoc]; rfl
  have hnames : doc.actors_names = rowActorsNames row := by rw [hdoc]; rfl
  constructor
  · intro hnull
    obtain ⟨h1, h2⟩ := (rowActors_cases row).1 hnull
    rw [hactors, hnames, h1, h2]
    exact ⟨rfl, rfl⟩
  · intro ids names hi hn
    obtain ⟨h1, h2⟩ := (rowActors_cases row).2 ids names hi hn
    rw [hactors, hnames, h1, h2]
    refine ⟨rfl, mem_mkActors_name, mem_mkActorsNames, ?_⟩
    intro hlen
    have e1 : (mkActors ids names).length =
        (((pySplit ids ',').zip (pySplit names ',')).filter
          (fun p => p.2 != NA)).length := by
      simp [mkActors]
    constructor
    · rw [e1]
      exact length_filter_zip_eq (fun x => x != NA) _ _ hlen
    · rw [e1]
      refine (List.length_filter_le _ _).trans ?_
      rw [List.length_zip]
      exact Nat.min_le_left _ _

/-- The document the transform produces for `baseRow` with the actor
columns a1,a2 and Bob,N/A. -/
def doc4 : Doc where
  id := "1"
  genre := ["Action", "Drama"]
  writers := []
  actors := [⟨"a1", "Bob"⟩]
  actors_names := ["Bob"]
  writers_names := []
  imdb_rating := none
  title := "X"
  director := none
  description := none

/-- Witness for C4 at concrete inputs: null actor columns give empty
outputs, and the columns a1,a2 / Bob,N/A (equal split lengths) give the
single retained pair in both outputs. -/
theorem actors_zip_before_filter_witness :
    doc5na.actors = [] ∧ doc5na.actors_names = [] ∧
    doc4.actors = [⟨"a1", "Bob"⟩] ∧
    doc4.actors.length = doc4.actors_names.length ∧
    doc4.actors.length ≤ 2 := by
  have h1 := (actors_zip_before_filter pfNone baseRow dirEmpty doc5na
    (by decide)).1 (Or.inl (by decide))
  have h2 := (actors_zip_before_filter pfNone
    { baseRow with actors_ids := some "a1,a2",
                   actors_names := some "Bob,N/A" }
    dirEmpty doc4 (by decide)).2 "a1,a2" "Bob,N/A" (by decide) (by decide)
  refine ⟨h1.1, h1.2, h2.1.trans (by decide), ?_, ?_⟩
  · exact (h2.2.2.2 (by decide)).1
  · exact (h2.2.2.2 (by decide)).2.trans_eq (by decide)

/-- C10: with both actor columns present, even with unequal comma-split
lengths, the actors list is the zip (truncated to the shorter split)
filtered by name, actors_names filters the full name split independently,
and the actors list is never longer than actors_names. -/
theorem actors_length_le_names (pf : String → Option Rat) (row : Row)
    (dir : String → Option Writer) (doc : Doc) (ids names : String)
    (h : transform_row pf row dir = .ok doc)
    (hi : row.actors_ids = some ids)
    (hn : row.actors_names = some names) :
    doc.actors = mkActors ids names ∧
    doc.actors_names = mkActorsNames names ∧
    doc.actors.length ≤ doc.actors_names.length := by
  obtain ⟨mw, r, hmw, hr, hdoc⟩ := transform_ok_elim h
  have hactors : doc.actors = rowActors row := by rw [hdoc]; rfl
  have hnames : doc.actors_names = rowActorsNames row := by rw [hdoc]; rfl
  obtain ⟨h1, h2⟩ := (rowActors_cases row).2 ids names hi hn
  rw [hactors, hnames, h1, h2]
  refine ⟨rfl, rfl, ?_⟩
  have e1 : (mkActors ids names).length =
      (((pySplit ids ',').zip (pySplit names ',')).filter
        (fun p => p.2 != NA)).length := by
    simp [mkActors]
  rw [e1]
  exact length_filter_zip_le (fun x => x != NA) _ _

/-- The document the transform produces for `baseRow` with the unequal
actor columns a1,a2,a3 / Bob,N/A (name split shorter). -/
def doc10 : Doc where
  id := "1"
  genre := ["Action", "Drama"]
  writers := []
  actors := [⟨"a1", "Bob"⟩]
  actors_names := ["Bob"]
  writers_names := []
  imdb_rating := none
  title := "X"
  director := none
  description := none

/-- Witness for C10 at concrete inputs with unequal split lengths: three
ids against two names, the sentinel pair dropped from the zip, the full
name split filtered independently. -/
theorem actors_length_le_names_witness :
    doc10.actors = [⟨"a1", "Bob"⟩] ∧ doc10.actors_names = ["Bob"] ∧
    doc10.actors.length ≤ doc10.actors_names.length := by
  have h := actors_length_le_names pfNone
    { baseRow with actors_ids := some "a1,a2,a3",
                   actors_names := some "Bob,N/A" }
    dirEmpty doc10 "a1,a2,a3" "Bob,N/A" (by decide) (by decide) (by decide)
  exact ⟨h.1.trans (by decide), h.2.1.trans (by decide), h.2.2⟩

/-- A left fold that appends blocks equals the concatenation of the
blocks after the initial accumulator. -/
lemma foldl_append_eq_flatMap {α β : Type} (f : α → List β) :
    ∀ (l : List α) (init : List β),
      l.foldl (fun acc x => acc ++ f x) init = init ++ l.flatMap f := by
  intro l
  induction l with
  | nil => intro init; simp
  | cons x xs ih =>
    intro init
    rw [List.foldl_cons, ih, List.flatMap_cons, List.append_assoc]

/-- The bulk-query loop produces the concatenation of one action/document
pair per row. -/
lemma get_es_bulk_query_eq (rows : List Doc) (index_name : String) :
    get_es_bulk_query rows index_name =
      rows.flatMap (fun r => [.action ⟨index_name, r.id⟩, .doc r]) := by
  unfold get_es_bulk_query
  rw [foldl_append_eq_flatMap]
  rfl

/-- The concatenated pairs, indexed: position 2i holds the action line of
row i and position 2i+1 its document line. -/
lemma bulk_lines_getElem (index_name : String) :
    ∀ (rows : List Doc) (i : Nat) (h : i < rows.length),
      (rows.flatMap (fun r =>
        [BulkLine.action ⟨index_name, r.id⟩, BulkLine.doc r]))[2 * i]? =
          some (.action ⟨index_name, (rows.get ⟨i, h⟩).id⟩) ∧
      (rows.flatMap (fun r =>
        [BulkLine.action ⟨index_name, r.id⟩, BulkLine.doc r]))[2 * i + 1]? =
          some (.doc (rows.get ⟨i, h⟩)) := by
  intro rows
  induction rows with
  | nil => intro i h; cases h
  | cons r rest ih =>
    intro i h
    cases i with
    | zero =>
      constructor
      · simp [List.flatMap_cons]
      · simp [List.flatMap_cons]
    | succ i =>
      have h' : i < rest.length := Nat.lt_of_succ_lt_succ h
      have e2 : 2 * (i + 1) = 2 * i + 1 + 1 := by ring
      have := ih i h'
      constructor
      · rw [e2, List.flatMap_cons]
        simpa using this.1
      · rw [e2, List.flatMap_cons]
        simpa using this.2

/-- C8: the bulk body is a newline-terminated sequence of alternating
action/document line pairs, one pair per document in batch order; the
action line at position 2i carries the target index name and the id of
the document on the following line. -/
theorem bulk_query_pairs (rows : List Doc) (index_name : String) :
    (get_es_bulk_query rows index_name).length = 2 * rows.length ∧
    (∀ render : BulkLine → String, ∃ t,
      bulk_body render (get_es_bulk_query rows index_name) = t ++ "\n") ∧
    ∀ (i : Nat) (h : i < rows.length),
      (get_es_bulk_query rows index_name)[2 * i]? =
        some (.action ⟨index_name, (rows.get ⟨i, h⟩).id⟩) ∧
      (get_es_bulk_query rows index_name)[2 * i + 1]? =
        some (.doc (rows.get ⟨i, h⟩)) := by
  refine ⟨?_, fun render => ⟨_, rfl⟩, ?_⟩
  · rw [get_es_bulk_query_eq]
    induction rows with
    | nil => rfl
    | cons r rest ih =>
      rw [List.flatMap_cons]
      simp only [List.length_append, List.length_cons, List.length_nil, ih]
      omega
  · intro i h
    rw [get_es_bulk_query_eq]
    exact bulk_lines_getElem index_name rows i h

/-- A second concrete document, with a distinct id. -/
def doc8 : Doc := { doc5na with id := "2" }

/-- Witness for C8 at a concrete two-document batch: the second pair sits
at positions 2 and 3, its action line carrying the index name and the id
of the document line that follows. -/
theorem bulk_query_pairs_witness :
    (get_es_bulk_query [doc5na, doc8] "movies")[2 * 1]? =
      some (.action ⟨"movies", "2"⟩) ∧
    (get_es_bulk_query [doc5na, doc8] "movies")[2 * 1 + 1]? =
      some (.doc doc8) := by
  have h := (bulk_query_pairs [doc5na, doc8] "movies").2.2 1 (by decide)
  exact ⟨h.1.trans (by decide), h.2.trans (by decide)⟩

/-- An item whose error value is truthy contributes exactly its message;
`None` and the empty string contribute nothing. -/
def itemLog (it : BulkItem) : Option String :=
  it.error.bind (fun e => if e ≠ "" then some e else none)

/-- The response loop, unfolded from its fold: the logged messages are the
truthy errors in item order. -/
lemma load_errors_foldl :
    ∀ (items : List BulkItem) (logs : List String),
      items.foldl
        (fun logs item =>
          match item.error with
          | some e => if e ≠ "" then logs ++ [e] else logs
          | none => logs) logs = logs ++ items.filterMap itemLog := by
  intro items
  induction items with
  | nil => intro logs; simp
  | cons it rest ih =>
    intro logs
    rw [List.foldl_cons, List.filterMap_cons]
    cases he : it.error with
    | none => rw [ih]; simp [itemLog, he]
    | some e =>
      rw [ih]
      by_cases hne : e ≠ ""
      · simp [itemLog, he, hne]
      · push_neg at hne
        subst hne
        simp [itemLog, he]

/-- C9 counterexample: an item carrying a non-null error — the empty
string — is not logged, because the code tests Python truthiness
(`if error_message:`) rather than non-nullness. -/
theorem load_errors_empty_error_cex :
    ({ error := some "" } : BulkItem).error ≠ none ∧
    load_errors [{ error := some "" }] = [] :=
  ⟨by decide, by decide⟩

/-- C9 amended: each per-item result carrying a truthy (non-null and
non-empty) error is logged in item order and processing continues over
the remaining items; in particular a non-empty error on item 2 of 3
yields exactly that one logged message. -/
theorem load_errors_characterization :
    (∀ items : List BulkItem,
      load_errors items = items.filterMap itemLog) ∧
    (∀ (i1 i3 : BulkItem) (e : String), i1.error = none →
      i3.error = none → e ≠ "" →
      load_errors [i1, { error := some e }, i3] = [e]) := by
  have hchar : ∀ items : List BulkItem,
      load_errors items = items.filterMap itemLog := by
    intro items
    rw [load_errors, load_errors_foldl]
    rfl
  refine ⟨hchar, ?_⟩
  intro i1 i3 e h1 h3 he
  rw [hchar]
  simp [itemLog, h1, h3, he]

/-- Witness for C9 (amended) at a concrete three-item response: only the
middle item carries an error and exactly its message is logged. -/
theorem load_errors_witness :
    load_errors [⟨none⟩, ⟨some "boom"⟩, ⟨none⟩] = ["boom"] :=
  load_errors_characterization.2 ⟨none⟩ ⟨none⟩ "boom" rfl rfl (by decide)

/-- Every character of a group produced by the split appears in the input
list. -/
lemma mem_of_mem_splitOnChar (sep : Char) :
    ∀ (l : List Char) (g : List Char), g ∈ splitOnChar sep l →
      ∀ c ∈ g, c ∈ l := by
  intro l
  induction l with
  | nil =>
    intro g hg c hc
    simp only [splitOnChar, List.mem_singleton] at hg
    subst hg
    cases hc
  | cons x xs ih =>
    intro g hg c hc
    cases hrest : splitOnChar sep xs with
    | nil =>
      simp only [splitOnChar, hrest, List.mem_singleton] at hg
      subst hg
      simp only [List.mem_singleton] at hc
      subst hc
      exact List.mem_cons_self _ _
    | cons g0 gs =>
      simp only [splitOnChar, hrest] at hg
      by_cases hx : x = sep
      · rw [if_pos hx] at hg
        rcases List.mem_cons.mp hg with hgnil | hg'
        · subst hgnil; cases hc
        · exact List.mem_cons_of_mem _
            (ih g (hrest ▸ hg') c hc)
      · rw [if_neg hx] at hg
        rcases List.mem_cons.mp hg with hghead | hg'
        · subst hghead
          rcases List.mem_cons.mp hc with hcx | hcg0
          · subst hcx; exact List.mem_cons_self _ _
          · exact List.mem_cons_of_mem _
              (ih g0 (hrest ▸ List.mem_cons_self g0 gs) c hcg0)
        · exact List.mem_cons_of_mem _
            (ih g (hrest ▸ List.mem_cons_of_mem g0 hg') c hc)

/-- The row whose genre string contains a tab after the comma. -/
def row7 : Row := { baseRow with genre := "Action,\tDrama" }

/-- The document the transform produces for `row7`: the tab survives,
because the code removes only the space character. -/
def doc7 : Doc := { doc5na with genre := ["Action", "\tDrama"] }

/-- C7 counterexample: on a genre string with a tab, the produced genre
list is not the claimed all-whitespace-stripped comma split — the code
removes only spaces, so the tab is passed through. -/
theorem genre_whitespace_cex :
    transform_row pfNone row7 dirEmpty = .ok doc7 ∧
    doc7.genre ≠ genre_spec row7.genre :=
  ⟨by decide, by decide⟩

/-- C7 amended: the genre field equals the genre string with every space
character (and only spaces) removed, then split on the comma, duplicates
and order preserved; consequently no element contains a space. -/
theorem genre_space_removed (pf : String → Option Rat) (row : Row)
    (dir : String → Option Writer) (doc : Doc)
    (h : transform_row pf row dir = .ok doc) :
    doc.genre = pySplit (removeSpaces row.genre) ',' ∧
    ∀ g ∈ doc.genre, ∀ c ∈ g.toList, c ≠ ' ' := by
  obtain ⟨mw, r, hmw, hr, hdoc⟩ := transform_ok_elim h
  have hg : doc.genre = pySplit (removeSpaces row.genre) ',' := by
    rw [hdoc]; rfl
  refine ⟨hg, ?_⟩
  intro g hgmem c hc
  rw [hg] at hgmem
  simp only [pySplit, List.mem_map] at hgmem
  obtain ⟨cl, hcl, rfl⟩ := hgmem
  have hcin : c ∈ (removeSpaces row.genre).toList :=
    mem_of_mem_splitOnChar ',' _ cl hcl c hc
  have : (removeSpaces row.genre).toList =
      row.genre.toList.filter (fun ch => ch != ' ') := rfl
  rw [this] at hcin
  have := (List.mem_filter.mp hcin).2
  exact bne_iff_ne.mp this

/-- The row whose genre string contains a space after the comma. -/
def row7w : Row := { baseRow with genre := "Action, Drama" }

/-- Witness for C7 (amended) at a concrete input: the space after the
comma is removed before splitting. -/
theorem genre_space_removed_witness :
    doc5na.genre = ["Action", "Drama"] := by
  have h := genre_space_removed pfNone row7w dirEmpty doc5na (by decide)
  exact h.1.trans (by decide)

/-- Membership in the first-occurrence deduplication implies membership
in the original list. -/
lemma mem_dedupKeepFirst {α : Type} [DecidableEq α] :
    ∀ (l : List α) (a : α), a ∈ dedupKeepFirst l → a ∈ l := by
  intro l
  induction l using dedupKeepFirst.induct with
  | case1 => intro a ha; simp [dedupKeepFirst] at ha
  | case2 x xs ih =>
    intro a ha
    rw [dedupKeepFirst] at ha
    rcases List.mem_cons.mp ha with h | h
    · subst h; exact List.mem_cons_self _ _
    · exact List.mem_cons_of_mem _ (List.mem_filter.mp (ih a h)).1

/-- First-occurrence deduplication yields a duplicate-free list. -/
lemma dedupKeepFirst_nodup {α : Type} [DecidableEq α] :
    ∀ l : List α, (dedupKeepFirst l).Nodup := by
  intro l
  induction l using dedupKeepFirst.induct with
  | case1 => simp [dedupKeepFirst]
  | case2 x xs ih =>
    rw [dedupKeepFirst]
    refine List.nodup_cons.mpr ⟨?_, ih⟩
    intro hmem
    have := (List.mem_filter.mp (mem_dedupKeepFirst _ _ hmem)).2
    simp at this

/-- First-occurrence deduplication commutes with filtering. -/
lemma dedupKeepFirst_filter {α : Type} [DecidableEq α] (p : α → Bool) :
    ∀ l : List α,
      dedupKeepFirst (l.filter p) = (dedupKeepFirst l).filter p := by
  intro l
  induction l using dedupKeepFirst.induct with
  | case1 => simp [dedupKeepFirst]
  | case2 x xs ih =>
    have hcomm : (xs.filter p).filter (fun y => decide (y ≠ x)) =
        (xs.filter (fun y => decide (y ≠ x))).filter p := by
      rw [List.filter_filter, List.filter_filter]
      exact List.filter_congr (fun a _ => Bool.and_comm _ _)
    by_cases hp : p x
    · rw [List.filter_cons, if_pos hp, dedupKeepFirst, dedupKeepFirst,
        hcomm, ih, List.filter_cons, if_pos hp]
    · rw [List.filter_cons, if_neg hp, dedupKeepFirst,
        List.filter_cons, if_neg hp, ← ih, ← hcomm]
      have hself : (xs.filter p).filter (fun y => decide (y ≠ x)) =
          xs.filter p := by
        refine List.filter_eq_self.mpr ?_
        intro a ha
        have hpa := (List.mem_filter.mp ha).2
        have : a ≠ x := by
          intro heq
          rw [heq] at hpa
          exact hp hpa
        simp [this]
      rw [hself]

/-- Filtering away the occurrences of an element the partial map sends to
`none` does not change a `filterMap`. -/
lemma filterMap_filter_ne {α β : Type} [DecidableEq α]
    (f : α → Option β) (x : α) (hfx : f x = none) :
    ∀ l : List α,
      (l.filter (fun y => decide (y ≠ x))).filterMap f = l.filterMap f := by
  intro l
  induction l with
  | nil => rfl
  | cons y ys ih =>
    rw [List.filter_cons]
    by_cases hyx : y = x
    · subst hyx
      rw [if_neg (by simp)]
      rw [ih]
      simp [List.filterMap_cons, hfx]
    · rw [if_pos (by simp [hyx])]
      rw [List.filterMap_cons, List.filterMap_cons, ih]

/-- The key refinement: on ids that all resolve, the writers loop started
with any seen set equals the spec-side first-occurrence deduplication of
the not-yet-seen ids, resolved and sentinel-filtered. -/
lemma movieWritersAux_spec {dir : String → Option Writer} :
    ∀ (ids : List String) (seen : List String),
      (∀ wid ∈ ids, (dir wid).isSome) →
      movieWritersAux dir ids seen =
        .ok ((dedupKeepFirst
          (ids.filter (fun x => decide (x ∉ seen)))).filterMap
            (resolveWriter dir)) := by
  intro ids
  induction ids with
  | nil => intro seen h; simp [movieWritersAux, dedupKeepFirst]
  | cons wid rest ih =>
    intro seen h
    obtain ⟨w, hd⟩ := Option.isSome_iff_exists.mp (h wid (by simp))
    have hrest : ∀ x ∈ rest, (dir x).isSome :=
      fun x hx => h x (List.mem_cons_of_mem _ hx)
    by_cases hseen : wid ∈ seen
    · have hcond : ¬(w.name ≠ NA ∧ wid ∉ seen) := fun hc => hc.2 hseen
      have hstep : movieWritersAux dir (wid :: rest) seen =
          movieWritersAux dir rest seen := by
        simp [movieWritersAux, hd, hcond]
      have hfilter : (wid :: rest).filter (fun x => decide (x ∉ seen)) =
          rest.filter (fun x => decide (x ∉ seen)) := by
        rw [List.filter_cons, if_neg]
        simp [hseen]
      rw [hstep, hfilter]
      exact ih seen hrest
    · have hfilter : (wid :: rest).filter (fun x => decide (x ∉ seen)) =
          wid :: rest.filter (fun x => decide (x ∉ seen)) := by
        rw [List.filter_cons, if_pos]
        simp [hseen]
      by_cases hname : w.name = NA
      · have hcond : ¬(w.name ≠ NA ∧ wid ∉ seen) := fun hc => hc.1 hname
        have hstep : movieWritersAux dir (wid :: rest) seen =
            movieWritersAux dir rest seen := by
          simp [movieWritersAux, hd, hcond]
        have hfwid : resolveWriter dir wid = none := by
          simp [resolveWriter, hd, hname]
        rw [hstep, ih seen hrest, hfilter, dedupKeepFirst]
        congr 1
        simp only [List.filterMap_cons, hfwid]
        conv_rhs => rw [dedupKeepFirst_filter]
        rw [filterMap_filter_ne (resolveWriter dir) wid hfwid]
      · have hcond : w.name ≠ NA ∧ wid ∉ seen := ⟨hname, hseen⟩
        have hstep : movieWritersAux dir (wid :: rest) seen =
            (movieWritersAux dir rest (wid :: seen)).map
              (fun l => w :: l) := by
          simp [movieWritersAux, hd, hcond]
        have hfwid : resolveWriter dir wid = some w := by
          simp [resolveWriter, hd, hname]
        have hff : (rest.filter
              (fun x => decide (x ∉ seen))).filter
                (fun y => decide (y ≠ wid)) =
            rest.filter (fun x => decide (x ∉ wid :: seen)) := by
          rw [List.filter_filter]
          refine List.filter_congr ?_
          intro a _
          by_cases h1 : a = wid <;> by_cases h2 : a ∈ seen <;>
            simp [h1, h2]
        rw [hstep, ih (wid :: seen) hrest, hfilter, dedupKeepFirst, hff]
        simp [Except.map, List.filterMap_cons, hfwid]

/-- The writers loop on fully-resolvable ids computes exactly the
spec-side writers list. -/
lemma movieWriters_spec {dir : String → Option Writer} {ids : List String}
    (h : ∀ wid ∈ ids, (dir wid).isSome) :
    movieWriters dir ids = .ok (specWriters dir ids) := by
  rw [movieWriters, movieWritersAux_spec ids [] h]
  have hfe : ids.filter (fun x => decide (x ∉ ([] : List String))) = ids :=
    List.filter_eq_self.mpr (fun a _ => by simp)
  rw [hfe]
  rfl

/-- A filterMap whose partial map inverts through a projection maps a
duplicate-free input to an output with duplicate-free projections. -/
lemma nodup_map_filterMap {α β : Type} (f : α → Option β) (g : β → α)
    (hinv : ∀ a b, f a = some b → g b = a) :
    ∀ l : List α, l.Nodup → ((l.filterMap f).map g).Nodup := by
  intro l
  induction l with
  | nil => intro _; simp
  | cons a as ih =>
    intro hnd
    obtain ⟨hnotmem, hnd'⟩ := List.nodup_cons.mp hnd
    cases hfa : f a with
    | none => rw [List.filterMap_cons_none hfa]; exact ih hnd'
    | some b =>
      rw [List.filterMap_cons_some hfa, List.map_cons]
      refine List.nodup_cons.mpr ⟨?_, ih hnd'⟩
      intro hmem
      obtain ⟨b', hb', hgb'⟩ := List.mem_map.mp hmem
      obtain ⟨a', ha', hfa'⟩ := List.mem_filterMap.mp hb'
      have : a' = a := by
        rw [← hinv a' b' hfa', hgb', hinv a b hfa]
      rw [this] at ha'
      exact hnotmem ha'

/-- The dict built by `load_writers_names` only maps an id to a record
carrying that same id. -/
lemma load_writers_names_consistent (rows : List Writer) :
    ∀ wid w, load_writers_names rows wid = some w → w.id = wid := by
  suffices h : ∀ (rows : List Writer) (init : String → Option Writer),
      (∀ wid w, init wid = some w → w.id = wid) →
      ∀ wid w,
        (rows.foldl
          (fun dict wr => fun k => if k = wr.id then some wr else dict k)
          init) wid = some w → w.id = wid by
    intro wid w
    exact h rows (fun _ => none) (fun _ _ hx => by cases hx) wid w
  intro rows
  induction rows with
  | nil => intro init hinit wid w hw; exact hinit wid w hw
  | cons r rest ih =>
    intro init hinit wid w hw
    refine ih _ ?_ wid w hw
    intro k v hk
    have hk' : (if k = r.id then some r else init k) = some v := hk
    by_cases hkr : k = r.id
    · rw [if_pos hkr] at hk'
      rw [← Option.some.inj hk', hkr]
    · rw [if_neg hkr] at hk'
      exact hinit k v hk'

/-- A writer kept by the spec-side resolution carries the id it was looked
up under, provided the directory is id-consistent. -/
lemma resolveWriter_id {dir : String → Option Writer}
    (hdir : ∀ wid w, dir wid = some w → w.id = wid) :
    ∀ a b, resolveWriter dir a = some b → b.id = a := by
  intro a b hr
  unfold resolveWriter at hr
  cases hda : dir a with
  | none => rw [hda] at hr; simp at hr
  | some w =>
    rw [hda] at hr
    have hr' : (if w.name = NA then none else some w) = some b := hr
    by_cases hn : w.name = NA
    · rw [if_pos hn] at hr'; cases hr'
    · rw [if_neg hn] at hr'
      rw [← Option.some.inj hr']
      exact hdir a w hda

/-- C3: for a row whose writer ids all resolve, the writers list of the
document is exactly the spec-side list — first-occurrence deduplication by
id, sentinel-named entries excluded — its ids are duplicate-free, and
writers_names is exactly its list of names, in the same order. -/
theorem writers_dedup_first_occurrence (pf : String → Option Rat)
    (row : Row) (dir : String → Option Writer) (doc : Doc)
    (hpres : ∀ wid ∈ row.writers, (dir wid).isSome)
    (hdir : ∀ wid w, dir wid = some w → w.id = wid)
    (h : transform_row pf row dir = .ok doc) :
    doc.writers = specWriters dir row.writers ∧
    doc.writers_names = doc.writers.map Writer.name ∧
    (doc.writers.map Writer.id).Nodup ∧
    ∀ w ∈ doc.writers, w.name ≠ NA := by
  obtain ⟨mw, r, hmw, hr, hdoc⟩ := transform_ok_elim h
  have hmw' : mw = specWriters dir row.writers := by
    have := movieWriters_spec hpres
    rw [hmw] at this
    exact Except.ok.inj this.symm |>.symm
  have hwriters : doc.writers = specWriters dir row.writers := by
    rw [hdoc]
    exact hmw'
  refine ⟨hwriters, by rw [hdoc]; rfl, ?_, ?_⟩
  · rw [hwriters, specWriters]
    exact nodup_map_filterMap (resolveWriter dir) Writer.id
      (resolveWriter_id hdir) _ (dedupKeepFirst_nodup _)
  · intro w hw
    obtain ⟨l, hl, hnames⟩ := movieWritersAux_ok_of_present [] hpres
    rw [movieWriters] at hmw
    rw [hl] at hmw
    have : l = mw := Except.ok.inj hmw
    rw [hdoc] at hw
    exact hnames w (by rw [this]; exact hw)

/-- A three-writer directory: Jane, a sentinel-named writer, and Bob. -/
def dir3 : String → Option Writer :=
  load_writers_names [⟨"w1", "Jane"⟩, ⟨"w2", "N/A"⟩, ⟨"w3", "Bob"⟩]

/-- A row referencing w1 twice, the sentinel-named w2, and w3. -/
def row3 : Row := { baseRow with writers := ["w1", "w2", "w1", "w3"] }

/-- The document the transform produces for `row3` under `dir3`. -/
def doc3 : Doc :=
  { doc5na with writers := [⟨"w1", "Jane"⟩, ⟨"w3", "Bob"⟩],
                writers_names := ["Jane", "Bob"] }

/-- Witness for C3 at concrete inputs: the duplicate w1 is kept once at
its first position, the sentinel-named w2 is dropped, and writers_names
lists exactly the names in order. -/
theorem writers_dedup_witness :
    doc3.writers = [⟨"w1", "Jane"⟩, ⟨"w3", "Bob"⟩] ∧
    doc3.writers_names = ["Jane", "Bob"] ∧
    (doc3.writers.map Writer.id).Nodup := by
  have h := writers_dedup_first_occurrence pfNone row3 dir3 doc3
    (by decide) (load_writers_names_consistent _) (by decide)
  have hs : specWriters dir3 row3.writers =
      [⟨"w1", "Jane"⟩, ⟨"w3", "Bob"⟩] := by
    have hd : dedupKeepFirst ["w1", "w2", "w1", "w3"] =
        ["w1", "w2", "w3"] := by
      simp [dedupKeepFirst]
    show (dedupKeepFirst ["w1", "w2", "w1", "w3"]).filterMap
      (resolveWriter dir3) = _
    rw [hd]
    decide
  refine ⟨h.1.trans hs, h.2.1.trans (by decide), h.2.2.1⟩

end S2E
